import Mathlib

/-!
Verification development for the oscem metadata converter.

The Go sources are shallowly embedded: Go maps `map[string]interface{}`
become association lists (`GoEntries`), slices `[]interface{}` become
`GoItems`, and the `basetypes` optional scalars become typed leaves of
`GoVal` carrying their `HasSet` flag.  A run-time panic of the Go code
(a failed unchecked type assertion) is modelled by `Option.none`, and
values written to the error stream are returned as an explicit list of
diagnostics.  Go float64 arithmetic is idealised by rational numbers;
no theorem below depends on a successfully parsed numeric value.
-/

/-- Character-level splitter behind `goSplit`, with the remaining list
length as structural fuel (enough fuel is always supplied, and the
separator is never empty in this code base). -/
def splitFuel (sep : List Char) : Nat → List Char → List (List Char)
  | 0, cs => [cs]
  | _ + 1, [] => [[]]
  | fuel + 1, c :: rest =>
      if (c :: rest).take sep.length = sep then
        [] :: splitFuel sep fuel ((c :: rest).drop sep.length)
      else
        match splitFuel sep fuel rest with
        | [] => [[c]]
        | g :: gs => (c :: g) :: gs

/-- Model of Go `strings.Split s sep` for a non-empty separator:
non-overlapping occurrences, at least one part. -/
def goSplit (s sep : String) : List String :=
  (splitFuel sep.toList s.toList.length s.toList).map String.mk

/-- Model of Go `strings.Contains s sub` for a non-empty `sub`:
the split yields at least two parts exactly when `sub` occurs. -/
def goContains (s sub : String) : Bool :=
  (goSplit s sub).length != 1

/-- The whitespace class trimmed by `strings.TrimSpace` (the inputs at
hand are ASCII). -/
def isSpaceChar (c : Char) : Bool :=
  c = ' ' || c = '\t' || c = '\n' || c = '\r' || c = '\x0c' || c = '\x0b'

/-- Model of Go `strings.TrimSpace`. -/
def goTrim (s : String) : String :=
  String.mk (((s.toList.dropWhile isSpaceChar).reverse.dropWhile isSpaceChar).reverse)

/-- Model of Go `strings.ToLower` on the ASCII names in play. -/
def goToLower (s : String) : String :=
  String.mk (s.toList.map Char.toLower)

/-- Model of Go `strings.HasSuffix`. -/
def goEndsWith (s suffix : String) : Bool :=
  s.toList.reverse.take suffix.toList.length = suffix.toList.reverse

/-- Model of Go `strings.Join` (up to the separator placement of
`strings.Join`, which interleaves). -/
def goIntercalate (sep : String) : List String → String
  | [] => ""
  | [x] => x
  | x :: xs => x ++ sep ++ goIntercalate sep xs

/-- Byte-order comparison of two character lists, the order used by Go
`sort.Strings` (the identifiers in play are ASCII, where character and
byte order agree). -/
def charListLe : List Char → List Char → Bool
  | [], _ => true
  | _ :: _, [] => false
  | a :: as, b :: bs =>
      if a.toNat < b.toNat then true
      else if b.toNat < a.toNat then false
      else charListLe as bs

/-- String comparison behind the sorted orders. -/
def goStrLe (a b : String) : Bool :=
  charListLe a.toList b.toList

/-- The wildcard marker test `strings.Contains s "[N]"` used throughout. -/
def containsN (s : String) : Bool :=
  goContains s "[N]"

/-- One row of the mapping table (`csvextract` in csv.go). -/
structure csvextract where
  OSCEM          : String := ""
  FromXML        : String := ""
  FromMDOC       : String := ""
  OptionalsMDOC  : String := ""
  Units          : String := ""
  CrunchFromXML  : String := ""
  CrunchFromMDOC : String := ""
  OptionalsXML   : String := ""
  Typ            : String := ""
deriving DecidableEq, Repr

/-- The flat input document `map[string]string`, as an association list. -/
abbrev GoDoc := List (String × String)

/-- Go map read `input[key]`: first binding of the key, if any. -/
def lookupDoc : GoDoc → String → Option String
  | [], _ => none
  | (k, v) :: rest, key => if k = key then some v else lookupDoc rest key

mutual
/-- A node of the output tree: nested containers, sequences, the four
`basetypes` optional scalars (payload, unit, `HasSet`), and the Go `nil`
interface value produced by `castToBaseType` for an unknown type. -/
inductive GoVal : Type where
  | obj    : GoEntries → GoVal
  | arr    : GoItems → GoVal
  | vint   : Int → String → Bool → GoVal
  | vfloat : Rat → String → Bool → GoVal
  | vbool  : Bool → Bool → GoVal
  | vstr   : String → Bool → GoVal
  | vnil   : GoVal
/-- The bindings of a `map[string]interface{}` container. -/
inductive GoEntries : Type where
  | nil  : GoEntries
  | cons : String → GoVal → GoEntries → GoEntries
/-- The elements of an `[]interface{}` sequence. -/
inductive GoItems : Type where
  | nil  : GoItems
  | cons : GoVal → GoItems → GoItems
end

/-- Go map read `m[key]` on a container. -/
def getEntry : GoEntries → String → Option GoVal
  | .nil, _ => none
  | .cons k v rest, key => if k = key then some v else getEntry rest key

/-- Go map write `m[key] = v`: replace the binding if present, else append. -/
def setEntry : GoEntries → String → GoVal → GoEntries
  | .nil, key, v => .cons key v .nil
  | .cons k w rest, key, v =>
      if k = key then .cons k v rest else .cons k w (setEntry rest key v)

/-- `len(m) == 0` for a container. -/
def entriesIsEmpty : GoEntries → Bool
  | .nil => true
  | .cons _ _ _ => false

/-- `len(xs) == 0` for a sequence. -/
def itemsIsEmpty : GoItems → Bool
  | .nil => true
  | .cons _ _ => false

/-- Sequence length. -/
def itemsLen : GoItems → Nat
  | .nil => 0
  | .cons _ rest => itemsLen rest + 1

/-- Sequence concatenation (Go `append(xs, ys...)`). -/
def itemsAppend : GoItems → GoItems → GoItems
  | .nil, ys => ys
  | .cons x rest, ys => .cons x (itemsAppend rest ys)

/-- Sequence read `xs[i]`. -/
def itemsGet : GoItems → Nat → Option GoVal
  | .nil, _ => none
  | .cons x _, 0 => some x
  | .cons _ rest, n + 1 => itemsGet rest n

/-- Sequence write `xs[i] = v` (out of range leaves the sequence alone). -/
def itemsSet : GoItems → Nat → GoVal → GoItems
  | .nil, _, _ => .nil
  | .cons _ rest, 0, v => .cons v rest
  | .cons x rest, n + 1, v => .cons x (itemsSet rest n v)

mutual
/-- `CleanMap` (unnamed/part_003 lines 84-141): prune unset leaves and
containers or sequences that become empty; `none` models returning Go
`nil`. -/
def CleanMap : GoVal → Option GoVal
  | .obj e =>
      let c := cleanEntries e
      if entriesIsEmpty c then none else some (.obj c)
  | .arr xs =>
      let c := cleanItems xs
      if itemsIsEmpty c then none else some (.arr c)
  | .vint n u s => if s then some (.vint n u s) else none
  | .vfloat q u s => if s then some (.vfloat q u s) else none
  | .vbool b s => if s then some (.vbool b s) else none
  | .vstr t s => if s then some (.vstr t s) else none
  | .vnil => none
/-- The loop over a map inside `CleanMap`: keep children that clean to
a non-nil value. -/
def cleanEntries : GoEntries → GoEntries
  | .nil => .nil
  | .cons k v rest =>
      match CleanMap v with
      | some cv => .cons k cv (cleanEntries rest)
      | none => cleanEntries rest
/-- The loop over a slice inside `CleanMap`. -/
def cleanItems : GoItems → GoItems
  | .nil => .nil
  | .cons v rest =>
      match CleanMap v with
      | some cv => .cons cv (cleanItems rest)
      | none => cleanItems rest
end

mutual
/-- A tree is clean when it has no unset leaf, no `nil` leaf and no
empty container or sequence, recursively. -/
def isCleanVal : GoVal → Bool
  | .obj e => !(entriesIsEmpty e) && isCleanEntries e
  | .arr xs => !(itemsIsEmpty xs) && isCleanItems xs
  | .vint _ _ s => s
  | .vfloat _ _ s => s
  | .vbool _ s => s
  | .vstr _ s => s
  | .vnil => false
/-- All bindings of a container are clean. -/
def isCleanEntries : GoEntries → Bool
  | .nil => true
  | .cons _ v rest => isCleanVal v && isCleanEntries rest
/-- All elements of a sequence are clean. -/
def isCleanItems : GoItems → Bool
  | .nil => true
  | .cons v rest => isCleanVal v && isCleanItems rest
end

/-- Leading whitespace skipped by `fmt` scanning. -/
def dropSpaces (cs : List Char) : List Char :=
  cs.dropWhile fun c => c = ' ' || c = '\t' || c = '\n' || c = '\r'

/-- Split off the longest leading run of decimal digits. -/
def takeDigits : List Char → List Char × List Char
  | [] => ([], [])
  | c :: rest =>
      if c.isDigit then
        let (ds, r) := takeDigits rest
        (c :: ds, r)
      else ([], c :: rest)

/-- Numeric value of a digit run. -/
def digitsVal (ds : List Char) : Nat :=
  ds.foldl (fun acc c => acc * 10 + (c.toNat - '0'.toNat)) 0

/-- An optional leading sign; returns (negative, rest). -/
def readSign : List Char → Bool × List Char
  | '-' :: r => (true, r)
  | '+' :: r => (false, r)
  | r => (false, r)

/-- Model of `fmt.Sscanf(value, "%d", &val)`: skip leading spaces, read an
optionally signed digit run; `none` when no digit is read, in which case
the Go variable keeps its zero value. -/
def scanInt (s : String) : Option Int :=
  let cs := dropSpaces s.toList
  let (neg, cs1) := readSign cs
  let (ds, _) := takeDigits cs1
  if ds.isEmpty then none
  else some (if neg then -(digitsVal ds : Int) else (digitsVal ds : Int))

/-- Decimal float syntax: optional sign, digits with an optional dot and
fraction, an optional exponent.  Returns the value (idealised as a
rational instead of a float64) and the unconsumed suffix; `none` when no
mantissa digit is present. -/
def parseFloatCore (cs : List Char) : Option (Rat × List Char) :=
  let (neg, cs1) := readSign cs
  let (ip, r1) := takeDigits cs1
  let (fp, r2) :=
    match r1 with
    | '.' :: r => takeDigits r
    | _ => ([], r1)
  if ip.isEmpty && fp.isEmpty then none
  else
    let mant : Rat := (digitsVal ip : Rat) + (digitsVal fp : Rat) / (10 : Rat) ^ fp.length
    let mant := if neg then -mant else mant
    match r2 with
    | 'e' :: r3 =>
        let (eneg, r4) := readSign r3
        let (eds, r5) := takeDigits r4
        if eds.isEmpty then some (mant, r2)
        else some (if eneg then mant / (10 : Rat) ^ digitsVal eds else mant * (10 : Rat) ^ digitsVal eds, r5)
    | 'E' :: r3 =>
        let (eneg, r4) := readSign r3
        let (eds, r5) := takeDigits r4
        if eds.isEmpty then some (mant, r2)
        else some (if eneg then mant / (10 : Rat) ^ digitsVal eds else mant * (10 : Rat) ^ digitsVal eds, r5)
    | _ => some (mant, r2)

/-- Model of `fmt.Sscanf(value, "%f", &val)`: best-effort leading float. -/
def scanFloat (s : String) : Option Rat :=
  (parseFloatCore (dropSpaces s.toList)).map Prod.fst

/-- Model of `strconv.ParseFloat(s, 64)`: the whole string must be a
float literal.  The special values Inf and NaN are accepted, as in Go;
their payload is idealised to 0 and never inspected by any theorem. -/
def goParseFloat (s : String) : Option Rat :=
  let low := goToLower s
  if low = "nan" || low = "inf" || low = "+inf" || low = "-inf" ||
     low = "infinity" || low = "+infinity" || low = "-infinity" then some 0
  else
    match parseFloatCore s.toList with
    | some (q, []) => some q
    | _ => none

/-- Model of `strconv.FormatFloat(v, 'f', 16, 64)`: fixed point with 16
fractional digits (rounding idealised to rational rounding). -/
def formatFloat16 (q : Rat) : String :=
  let sgn := if q < 0 then "-" else ""
  let n : Nat := (|q| * (10 : Rat) ^ 16 + 1 / 2).floor.toNat
  let ipart := n / 10 ^ 16
  let fpart := n % 10 ^ 16
  let fs := toString fpart
  sgn ++ toString ipart ++ "." ++ String.mk (List.replicate (16 - fs.length) '0') ++ fs

/-- `unitCrunch` (mapping.go lines 474-484): multiply a numeric string by
the factor; on a parse failure return the original value and the error. -/
def unitCrunch (value factor : String) : String × Option String :=
  match goParseFloat value with
  | none => (value, some "invalid syntax")
  | some check =>
      let fac := (goParseFloat factor).getD 0
      (formatFloat16 (check * fac), none)

/-- `applyUnitCrunch` (mapping.go lines 460-471): use the converted value
only when conversion succeeded; a failure keeps the raw value and emits a
diagnostic on the error stream (returned here as a list). -/
def applyUnitCrunch (crunchFactor rawValue : String) (row : csvextract) : String × List String :=
  if crunchFactor ≠ "" then
    match unitCrunch rawValue crunchFactor with
    | (converted, none) => (converted, [])
    | (_, some e) => (rawValue, ["Unit crunching failed for " ++ row.OSCEM ++ " : " ++ e])
  else (rawValue, [])

/-- `castToBaseType` (mapping.go lines 487-516 and unnamed/part_003 lines
144-173): `Set` always marks the value as present, even when the numeric
scan failed and the payload is the zero value; an unrecognized declared
type yields the Go `nil` interface value. -/
def castToBaseType (value t unit : String) : GoVal :=
  match goToLower t with
  | "int" => .vint ((scanInt value).getD 0) unit true
  | "float" => .vfloat ((scanFloat value).getD 0) unit true
  | "float64" => .vfloat ((scanFloat value).getD 0) unit true
  | "bool" => .vbool (goToLower value = "true") true
  | "string" => .vstr value true
  | _ => .vnil

/-- `processValue` (mapping.go lines 452-457). -/
def processValue (rawValue crunchFactor : String) (row : csvextract) : GoVal :=
  castToBaseType (applyUnitCrunch crunchFactor rawValue row).1 row.Typ row.Units

/-- `insertNested` (mapping.go lines 519-533).  The descent performs the
unchecked assertion `curr[key].(map[string]interface{})`; hitting a
non-container value there panics, modelled by `none`. -/
def insertNested : GoEntries → List String → GoVal → Option GoEntries
  | m, [], _ => some m
  | m, [k], v => some (setEntry m k v)
  | m, k :: rest, v =>
      let sub : Option GoEntries :=
        match getEntry m k with
        | none => some GoEntries.nil
        | some (.obj e) => some e
        | some _ => none
      match sub with
      | none => none
      | some e =>
          match insertNested e rest v with
          | none => none
          | some e2 => some (setEntry m k (.obj e2))

/-- The creating descent shared by `handleArrayField`: walk the given
segments, creating containers on demand, apply `f` at the end; a
non-container on the way is an unchecked type assertion, hence a panic. -/
def updateAtPath : GoEntries → List String → (GoEntries → Option GoEntries) → Option GoEntries
  | m, [], f => f m
  | m, seg :: rest, f =>
      let sub : Option GoEntries :=
        match getEntry m seg with
        | none => some GoEntries.nil
        | some (.obj e) => some e
        | some _ => none
      sub.bind fun e => (updateAtPath e rest f).map fun e2 => setEntry m seg (.obj e2)

/-- The descent of `addItemsToArrayPath` (arrays.go lines 290-323): the
checked assertion `parent[segment].(map[string]interface{})` silently
abandons the placement on a non-container, keeping containers created on
the way; at the last segment anything that is not a sequence is replaced
by the appended items. -/
def addItemsWalk : GoEntries → List String → GoItems → GoEntries
  | m, [], _ => m
  | m, [arrayName], items =>
      let existing :=
        match getEntry m arrayName with
        | some (.arr xs) => xs
        | _ => GoItems.nil
      setEntry m arrayName (.arr (itemsAppend existing items))
  | m, seg :: rest, items =>
      match getEntry m seg with
      | none => setEntry m seg (.obj (addItemsWalk GoEntries.nil rest items))
      | some (.obj e) => setEntry m seg (.obj (addItemsWalk e rest items))
      | some _ => m

/-- `addItemsToArrayPath` (arrays.go lines 290-323). -/
def addItemsToArrayPath (result : GoEntries) (items : GoItems) (arrayPath : String) : GoEntries :=
  if itemsIsEmpty items then result
  else addItemsWalk result (goSplit arrayPath ".") items

/-- `storeUnmappedField` (mapping.go lines 341-363): register a missing
name in the process-wide registry when it carries the wildcard marker,
was not registered before (compared on the `FromMDOC` field), and the
target path of the referencing rule carries the wildcard marker too. -/
def storeUnmappedField (dyn : List csvextract) (row : csvextract) (fieldName : String) : List csvextract :=
  if containsN fieldName then
    let alreadyStored := dyn.any fun stored => stored.FromMDOC = fieldName
    if !alreadyStored && containsN row.OSCEM then
      dyn ++ [{ OSCEM := row.OSCEM, FromMDOC := fieldName,
                OptionalsMDOC := row.OptionalsMDOC, Units := row.Units,
                CrunchFromMDOC := row.CrunchFromMDOC, Typ := row.Typ }]
    else dyn
  else dyn

/-- The loop over a semicolon-separated name list inside
`extractValuesFromInput` (mapping.go lines 300-324): empty strings keep
the positional alignment, missing names go through `storeUnmappedField`. -/
def extractSemi (row : csvextract) (input : GoDoc) :
    List String → List csvextract → (List String × Bool) × List csvextract
  | [], dyn => (([], false), dyn)
  | name :: rest, dyn =>
      let name := goTrim name
      if name = "" then
        let r := extractSemi row input rest dyn
        (("" :: r.1.1, r.1.2), r.2)
      else
        match lookupDoc input name with
        | some v =>
            let r := extractSemi row input rest dyn
            ((v :: r.1.1, true), r.2)
        | none =>
            let r := extractSemi row input rest (storeUnmappedField dyn row name)
            (("" :: r.1.1, r.1.2), r.2)

/-- `extractValuesFromInput` (mapping.go lines 299-334), with the global
registry threaded explicitly. -/
def extractValuesFromInput (row : csvextract) (input : GoDoc) (key : String)
    (dyn : List csvextract) : (List String × Bool) × List csvextract :=
  if goContains key ";" then
    extractSemi row input (goSplit key ";") dyn
  else
    match lookupDoc input key with
    | some v => (([v], true), dyn)
    | none => (([], false), storeUnmappedField dyn row key)

/-- The registry-free value of the semicolon loop. -/
def extractSemiPure (input : GoDoc) : List String → List String × Bool
  | [] => ([], false)
  | name :: rest =>
      let name := goTrim name
      if name = "" then
        let r := extractSemiPure input rest
        ("" :: r.1, r.2)
      else
        match lookupDoc input name with
        | some v =>
            let r := extractSemiPure input rest
            (v :: r.1, true)
        | none =>
            let r := extractSemiPure input rest
            ("" :: r.1, r.2)

/-- The registry-free value of `extractValuesFromInput`. -/
def extractFoundPure (input : GoDoc) (key : String) : List String × Bool :=
  if goContains key ";" then extractSemiPure input (goSplit key ";")
  else
    match lookupDoc input key with
    | some v => ([v], true)
    | none => ([], false)

/-- One entry of the `checks` slice of `findMatchingValues` (mapping.go
lines 264-284): skip an empty candidate field, otherwise attempt the
lookup and pair a hit with the crunch factor of the tier. -/
def tierCheck (row : csvextract) (input : GoDoc) (dyn : List csvextract)
    (field crunch : String) : Option (List String × String) × List csvextract :=
  if field = "" then (none, dyn)
  else
    let r := extractValuesFromInput row input field dyn
    if r.1.2 then (some (r.1.1, crunch), r.2) else (none, r.2)

/-- `findMatchingValues` (mapping.go lines 264-284), specialised as at its
call sites to the extractor `extractValuesFromInput`: the unrolled walk
over the four prioritised checks, stopping at the first hit. -/
def findMatchingValues (row : csvextract) (input : GoDoc) (dyn : List csvextract) :
    Option (List String × String) × List csvextract :=
  let c1 := tierCheck row input dyn row.OptionalsMDOC row.CrunchFromMDOC
  match c1.1 with
  | some v => (some v, c1.2)
  | none =>
      let c2 := tierCheck row input c1.2 row.FromMDOC row.CrunchFromMDOC
      match c2.1 with
      | some v => (some v, c2.2)
      | none =>
          let c3 := tierCheck row input c2.2 row.OptionalsXML row.CrunchFromXML
          match c3.1 with
          | some v => (some v, c3.2)
          | none => tierCheck row input c3.2 row.FromXML row.CrunchFromXML

/-- The pure hit of one tier: what the tier contributes when it is the
first to resolve. -/
def tierHit (input : GoDoc) (field crunch : String) : Option (List String × String) :=
  if field = "" then none
  else
    match extractFoundPure input field with
    | (vals, true) => some (vals, crunch)
    | (_, false) => none

/-- `strings.TrimPrefix(s, ".")`. -/
def trimLeadingDot (s : String) : String :=
  match s.toList with
  | '.' :: rest => String.mk rest
  | _ => s

/-- `parseArrayPath` (mapping.go lines 437-449): split a target path at
the wildcard into parent segments, array name and per-element path. -/
def parseArrayPath (oscem : String) : List String × String × String :=
  let parts := goSplit oscem "[N]"
  let beforeArray := parts.headD ""
  let afterArray := (parts.drop 1).headD ""
  let beforeParts := goSplit beforeArray "."
  (beforeParts.dropLast, beforeParts.getLastD "", trimLeadingDot afterArray)

/-- `handleRegularField` (mapping.go lines 372-379). -/
def handleRegularField (result : GoEntries) (row : csvextract) (rawValues : List String)
    (crunch : String) : Option GoEntries :=
  match rawValues with
  | [] => some result
  | v :: _ => insertNested result (goSplit row.OSCEM ".") (processValue v crunch row)

/-- Append `k` fresh empty containers to a sequence (the Go loop
`for len(arr) < i+1 { arr = append(arr, make(map...)) }`). -/
def appendEmptyObjs (xs : GoItems) : Nat → GoItems
  | 0 => xs
  | k + 1 => appendEmptyObjs (itemsAppend xs (.cons (.obj .nil) .nil)) k

/-- Grow a sequence to length at least `n` with empty containers. -/
def padItems (xs : GoItems) (n : Nat) : GoItems :=
  appendEmptyObjs xs (n - itemsLen xs)

/-- The value loop of `handleArrayField` (mapping.go lines 406-419):
skip empty raw values, pad the sequence, and insert into the element at
the running index; a non-container element is an unchecked assertion. -/
def fillArray (row : csvextract) (propertyName crunch : String) :
    GoItems → Nat → List String → Option GoItems
  | arr, _, [] => some arr
  | arr, i, v :: rest =>
      if v = "" then fillArray row propertyName crunch arr (i + 1) rest
      else
        let value := processValue v crunch row
        let arr1 := padItems arr (i + 1)
        match itemsGet arr1 i with
        | some (.obj e) =>
            match insertNested e (goSplit propertyName ".") value with
            | none => none
            | some e2 => fillArray row propertyName crunch (itemsSet arr1 i (.obj e2)) (i + 1) rest
        | _ => none

/-- `handleArrayField` (mapping.go lines 389-421). -/
def handleArrayField (result : GoEntries) (row : csvextract) (rawValues : List String)
    (crunch : String) : Option GoEntries :=
  let (arrayPath, arrayName, propertyName) := parseArrayPath row.OSCEM
  updateAtPath result arrayPath fun parent =>
    let arr0 : Option GoItems :=
      match getEntry parent arrayName with
      | none => some .nil
      | some (.arr xs) => some xs
      | some _ => none
    arr0.bind fun arr =>
      (fillArray row propertyName crunch arr 0 rawValues).map fun arr2 =>
        setEntry parent arrayName (.arr arr2)

/-- The body of the loop of `processRegularMappings` (mapping.go lines
233-247) for one rule. -/
def processRow (input : GoDoc) (res : GoEntries) (dyn : List csvextract)
    (row : csvextract) : Option (GoEntries × List csvextract) :=
  let r := findMatchingValues row input dyn
  match r.1 with
  | none => some (res, r.2)
  | some (vals, crunch) =>
      if containsN row.OSCEM then
        (handleArrayField res row vals crunch).map fun res1 => (res1, r.2)
      else
        (handleRegularField res row vals crunch).map fun res1 => (res1, r.2)

/-- `processRegularMappings` (mapping.go lines 233-247). -/
def processRegularMappings : List csvextract → GoDoc → GoEntries → List csvextract →
    Option (GoEntries × List csvextract)
  | [], _, res, dyn => some (res, dyn)
  | row :: rest, input, res, dyn =>
      match processRow input res dyn row with
      | none => none
      | some (res1, dyn1) => processRegularMappings rest input res1 dyn1

/-- The first variant of `findMatchingValues` (mapping.go lines 40-60),
parameterised by a pure extractor, as used by `processSingleDetector`. -/
def findMatchingValuesP (row : csvextract) (input : GoDoc)
    (ext : GoDoc → String → Option (List String)) : Option (List String × String) :=
  let try1 := fun (field crunch : String) =>
    if field = "" then none
    else (ext input field).map fun vals => (vals, crunch)
  match try1 row.OptionalsMDOC row.CrunchFromMDOC with
  | some v => some v
  | none =>
      match try1 row.FromMDOC row.CrunchFromMDOC with
      | some v => some v
      | none =>
          match try1 row.OptionalsXML row.CrunchFromXML with
          | some v => some v
          | none => try1 row.FromXML row.CrunchFromXML

/-- Anchored matching of a wildcard source-key pattern, given as the
literal pieces around the `[N]` markers, against a key: the model of
`convertPatternToRegex` (arrays.go lines 211-218) composed with
`regexp.FindStringSubmatch`.  Each marker matches one or more characters
other than a dot, greedily (longest capture first), and the captured
pieces are returned.  The fuel counts the pieces still to match; one
unit is spent per piece, so the piece count is always enough. -/
def matchFuel : Nat → List String → List Char → Option (List String)
  | _, [], _ => none
  | _, [p], cs => if cs = p.toList then some [] else none
  | 0, _ :: _ :: _, _ => none
  | fuel + 1, p :: ps, cs =>
      if cs.take p.length = p.toList then
        let cs1 := cs.drop p.length
        ((List.range cs1.length).reverse.map (· + 1)).findSome? fun k =>
          let cap := cs1.take k
          if cap.length = k && !(cap.contains '.') then
            match matchFuel fuel ps (cs1.drop k) with
            | some gs => some (String.mk cap :: gs)
            | none => none
          else none
      else none

/-- The first captured group of the wildcard pattern on a key, `none`
when the pattern has no marker (`convertPatternToRegex` returns the empty
pattern then) or the key does not match. -/
def convertPatternCapture (fieldPattern key : String) : Option String :=
  if !containsN fieldPattern then none
  else
    let parts := goSplit fieldPattern "[N]"
    match matchFuel parts.length parts key.toList with
    | some (g :: _) => some g
    | _ => none

/-- `getFieldPattern` (arrays.go lines 43-51). -/
def getFieldPattern (row : csvextract) : String :=
  if row.FromMDOC ≠ "" then row.FromMDOC
  else if row.OptionalsMDOC ≠ "" then row.OptionalsMDOC
  else ""

/-- `getCrunchFactor` (arrays.go lines 221-235). -/
def getCrunchFactor (row : csvextract) : String :=
  if row.FromMDOC ≠ "" then row.CrunchFromMDOC
  else if row.OptionalsMDOC ≠ "" then row.CrunchFromMDOC
  else if row.FromXML ≠ "" then row.CrunchFromXML
  else if row.OptionalsXML ≠ "" then row.CrunchFromXML
  else ""

/-- `extractPropertyName` (arrays.go lines 273-279, detectors.go lines
132-138): the per-element path after a single wildcard marker. -/
def extractPropertyName (oscem : String) : String :=
  match goSplit oscem "[N]" with
  | [_, after] => trimLeadingDot after
  | _ => ""

/-- `parseArrayPathFromOSCEM` (arrays.go lines 248-260). -/
def parseArrayPathFromOSCEM (oscem : String) : List String × String :=
  if !containsN oscem then ([], "")
  else
    let beforeParts := goSplit ((goSplit oscem "[N]").headD "") "."
    if beforeParts.isEmpty then ([], "")
    else (beforeParts.dropLast, beforeParts.getLastD "")

/-- First input pair whose key matches the wildcard pattern (the inner
scan of `processSingleInput`, in the iteration order of the model). -/
def findFirstMatch (fieldPattern : String) : GoDoc → Option (String × String)
  | [] => none
  | (k, v) :: rest =>
      match convertPatternCapture fieldPattern k with
      | some _ => some (k, v)
      | none => findFirstMatch fieldPattern rest

/-- The rule loop of `processSingleInput` (arrays.go lines 162-199).  A
rule whose per-element path is empty scans on without ever inserting,
which is the same as skipping it. -/
def processSingleRows (input : GoDoc) : List csvextract → GoEntries → Option GoEntries
  | [], acc => some acc
  | row :: rest, acc =>
      if !containsN row.OSCEM then processSingleRows input rest acc
      else
        let fp := getFieldPattern row
        if fp = "" then processSingleRows input rest acc
        else if !containsN fp then processSingleRows input rest acc
        else
          match findFirstMatch fp input with
          | none => processSingleRows input rest acc
          | some (_, v) =>
              let propertyName := extractPropertyName row.OSCEM
              if propertyName = "" then processSingleRows input rest acc
              else
                let value := processValue v (getCrunchFactor row) row
                if goContains propertyName "." then
                  match insertNested acc (goSplit propertyName ".") value with
                  | none => none
                  | some acc2 => processSingleRows input rest acc2
                else processSingleRows input rest (setEntry acc propertyName value)

/-- `processSingleInput` (arrays.go lines 162-199). -/
def processSingleInput (input : GoDoc) (dynPatterns : List csvextract) : Option GoEntries :=
  processSingleRows input dynPatterns .nil

/-- The model of `sort.Strings` over the keys of an index map
(arrays.go lines 127-132, detectors.go lines 38-43). -/
def sortIndices (m : List (String × GoDoc)) : List String :=
  List.insertionSort (fun a b => goStrLe a b = true) (m.map Prod.fst)

/-- Read of a grouped sub-document by its group key. -/
def lookupGroup : List (String × GoDoc) → String → GoDoc
  | [], _ => []
  | (k, d) :: rest, key => if k = key then d else lookupGroup rest key

/-- The shared shape of the two second-pass loops: process the group keys
in the given (sorted) order and keep the non-empty elements, paired with
the group key that produced them. -/
def buildSortedElems (f : String → Option GoEntries) : List String → Option (List (String × GoEntries))
  | [] => some []
  | idx :: rest =>
      match f idx with
      | none => none
      | some el =>
          match buildSortedElems f rest with
          | none => none
          | some tail => some (if entriesIsEmpty el then tail else (idx, el) :: tail)

/-- The per-array-path body of `processEachArrayType` (arrays.go lines
124-146), keeping the group key of every emitted element. -/
def processArrayIndices (indices : List (String × GoDoc)) (dynPatterns : List csvextract) :
    Option (List (String × GoEntries)) :=
  buildSortedElems (fun idx => processSingleInput (lookupGroup indices idx) dynPatterns)
    (sortIndices indices)

/-- Forget the group keys and wrap the elements as containers. -/
def pairsToItems : List (String × GoEntries) → GoItems
  | [] => .nil
  | (_, e) :: rest => .cons (.obj e) (pairsToItems rest)

/-- `processEachArrayType` (arrays.go lines 121-149). -/
def processEachArrayType : List (String × List (String × GoDoc)) → List csvextract →
    Option (List (String × GoItems))
  | [], _ => some []
  | (path, indices) :: rest, dynPatterns =>
      match processArrayIndices indices dynPatterns with
      | none => none
      | some pairs =>
          match processEachArrayType rest dynPatterns with
          | none => none
          | some acc =>
              let items := pairsToItems pairs
              some (if itemsIsEmpty items then acc else (path, items) :: acc)

/-- Grouped insert used by `stemGroups`. -/
def addToGroup : List (String × List csvextract) → String → csvextract →
    List (String × List csvextract)
  | [], key, pat => [(key, [pat])]
  | (k, pats) :: rest, key, pat =>
      if k = key then (k, pats ++ [pat]) :: rest
      else (k, pats) :: addToGroup rest key pat

/-- The stem grouping of `processDynamicArrayFields` (arrays.go lines
22-29): group the deferred rules by everything before the wildcard in
their field pattern. -/
def stemGroups (dyn : List csvextract) : List (String × List csvextract) :=
  dyn.foldl
    (fun gs pat =>
      let fp := getFieldPattern pat
      if fp != "" && containsN fp then addToGroup gs (((goSplit fp "[N]")).headD "") pat
      else gs)
    []

/-- Go map write on a flat sub-document. -/
def setDoc : GoDoc → String → String → GoDoc
  | [], key, v => [(key, v)]
  | (k, w) :: rest, key, v =>
      if k = key then (k, v) :: rest else (k, w) :: setDoc rest key v

/-- `inputs[target][idx][key] = v` with creation of the nested maps
(arrays.go lines 94-101). -/
def updGroups (inputs : List (String × List (String × GoDoc))) (target idx key v : String) :
    List (String × List (String × GoDoc)) :=
  match inputs with
  | [] => [(target, [(idx, [(key, v)])])]
  | (t, m) :: rest =>
      if t = target then
        let upd : List (String × GoDoc) :=
          match m.find? (fun p => p.1 = idx) with
          | some _ => m.map fun p => if p.1 = idx then (p.1, setDoc p.2 key v) else p
          | none => m ++ [(idx, [(key, v)])]
        (t, upd) :: rest
      else (t, m) :: updGroups rest target idx key v

/-- The input scan of one pattern inside `groupArrayInputs` (arrays.go
lines 90-103). -/
def scanPattern (acc : List (String × List (String × GoDoc))) (target fp : String)
    (input : GoDoc) : List (String × List (String × GoDoc)) :=
  input.foldl
    (fun acc2 kv =>
      match convertPatternCapture fp kv.1 with
      | some idx => updGroups acc2 target idx kv.1 kv.2
      | none => acc2)
    acc

/-- `groupArrayInputs` (arrays.go lines 65-108). -/
def groupArrayInputs (input : GoDoc) (groups : List (String × List csvextract)) :
    List (String × List (String × GoDoc)) :=
  groups.foldl
    (fun acc g =>
      let target :=
        match g.2 with
        | [] => ""
        | p0 :: _ =>
            let (ap, an) := parseArrayPathFromOSCEM p0.OSCEM
            goIntercalate "." (ap ++ [an])
      if target = "" then acc
      else
        g.2.foldl
          (fun acc2 pat =>
            let fp := getFieldPattern pat
            if fp = "" then acc2
            else if !containsN fp then acc2
            else scanPattern acc2 target fp input)
          acc)
    []

/-- `processDynamicArrayFields` (arrays.go lines 17-40). -/
def processDynamicArrayFields (result : GoEntries) (dyn : List csvextract) (input : GoDoc) :
    Option GoEntries :=
  if dyn.isEmpty then some result
  else
    let groups := stemGroups dyn
    let inputs := groupArrayInputs input groups
    if inputs.isEmpty then some result
    else
      (processEachArrayType inputs dyn).map fun arrs =>
        arrs.foldl (fun res pr => addItemsToArrayPath res pr.2 pr.1) result

/-- `getLastPart` (detectors.go lines 127-130). -/
def getLastPart (fieldName : String) : String :=
  (goSplit fieldName ".").getLastD ""

/-- The suffix scan of `extractDetectorValues`: first value whose key
ends with a dot followed by the last part of the name. -/
def suffixMatch : GoDoc → String → Option String
  | [], _ => none
  | (k, v) :: rest, name =>
      if goEndsWith k ("." ++ getLastPart name) then some v else suffixMatch rest name

/-- The name loop of the semicolon branch of `extractDetectorValues`. -/
def detectorSemi (detectorInput : GoDoc) : List String → Option (List String)
  | [] => none
  | name :: rest =>
      let name := goTrim name
      if name = "" then detectorSemi detectorInput rest
      else
        match suffixMatch detectorInput name with
        | some v => some [v]
        | none => detectorSemi detectorInput rest

/-- `extractDetectorValues` (detectors.go lines 81-106). -/
def extractDetectorValues (detectorInput : GoDoc) (fieldPattern : String) : Option (List String) :=
  if goContains fieldPattern ";" then detectorSemi detectorInput (goSplit fieldPattern ";")
  else (suffixMatch detectorInput fieldPattern).map fun v => [v]

/-- The rule loop of `processSingleDetector` (detectors.go lines 54-79).
`extractDetectorValues` only ever reports singleton value lists, so
`headD` models the Go read `rawValues[0]`. -/
def processSingleDetectorRows (detectorInput : GoDoc) : List csvextract → GoEntries →
    Option GoEntries
  | [], acc => some acc
  | row :: rest, acc =>
      if !(goContains row.OSCEM "detectors[N]") then processSingleDetectorRows detectorInput rest acc
      else
        match findMatchingValuesP row detectorInput extractDetectorValues with
        | none => processSingleDetectorRows detectorInput rest acc
        | some (rawValues, crunch) =>
            let propertyName := extractPropertyName row.OSCEM
            let value := processValue (rawValues.headD "") crunch row
            if goContains propertyName "." then
              match insertNested acc (goSplit propertyName ".") value with
              | none => none
              | some acc2 => processSingleDetectorRows detectorInput rest acc2
            else processSingleDetectorRows detectorInput rest (setEntry acc propertyName value)

/-- `processSingleDetector` (detectors.go lines 54-79). -/
def processSingleDetector (detectorInput : GoDoc) (rows : List csvextract) : Option GoEntries :=
  processSingleDetectorRows detectorInput rows .nil

/-- `processEachDetector` (detectors.go lines 35-52), keeping the
detector identifier of every emitted element. -/
def processEachDetector (detectorInputs : List (String × GoDoc)) (rows : List csvextract) :
    Option (List (String × GoEntries)) :=
  buildSortedElems (fun i => processSingleDetector (lookupGroup detectorInputs i) rows)
    (sortIndices detectorInputs)

/-- `convertToHierarchicalJSON` (mapping.go lines 212-223): the first
pass over the rules, then the dynamic-array second pass over the
deferred registry, reset for the call. -/
def convertToHierarchicalJSON (rows : List csvextract) (input : GoDoc) : Option GoEntries :=
  (processRegularMappings rows input .nil []).bind fun pr =>
    processDynamicArrayFields pr.1 pr.2 input

/-- The constant-injection and pruning tail of `Convert`
(unnamed/part_003 lines 47-58): the two caller-supplied values go
through `castToBaseType` and `insertNested` like every other field and
the assembled tree is then pruned by `CleanMap`. -/
def convertTail (out : GoEntries) (p1 p2 : String) : Option (Option GoVal) :=
  (insertNested out ["instrument", "cs"] (castToBaseType p1 "float64" "mm")).bind fun o1 =>
    (insertNested o1 ["acquisition", "gainref_flip_rotate"] (castToBaseType p2 "string" "")).map
      fun o2 => CleanMap (.obj o2)

/-- The conversion engine of `Convert` (unnamed/part_003 lines 22-82):
the result of `json.Unmarshal` is modelled as `Option GoDoc`; its error
is discarded by `Convert` (`_ = json.Unmarshal(jsonin, &values)`), so a
parse failure leaves the nil map, that is the empty document.  Mapping
table loading and output file writing sit outside the engine. -/
def ConvertEngine (parsed : Option GoDoc) (rows : List csvextract) (p1 p2 : String) :
    Option (Option GoVal) :=
  (convertToHierarchicalJSON rows (parsed.getD [])).bind fun out => convertTail out p1 p2

/-- Path lookup in a result tree, for stating which fields are present. -/
def lookupPath : GoVal → List String → Option GoVal
  | v, [] => some v
  | .obj e, k :: rest => (getEntry e k).bind fun v => lookupPath v rest
  | _, _ :: _ => none

/-- The `HasSet` flag of a typed leaf. -/
def isSetLeaf : GoVal → Bool
  | .vint _ _ s => s
  | .vfloat _ _ s => s
  | .vbool _ s => s
  | .vstr _ s => s
  | _ => false

/-- The tree consisting of the two injected fields alone: what `Convert`
assembles when the input document contributes nothing. -/
def injectedOnlyTree (p1 p2 : String) : GoVal :=
  .obj (.cons "instrument" (.obj (.cons "cs" (castToBaseType p1 "float64" "mm") .nil))
    (.cons "acquisition" (.obj (.cons "gainref_flip_rotate" (castToBaseType p2 "string" "") .nil))
      .nil))

/-- The resolution contract of spec section 4.1, written as the priority
chain over the pure per-tier lookups: tier-1 alternate, tier-1 primary,
tier-2 alternate, tier-2 primary, first hit wins, no fall-through. -/
def resolveByPriority (row : csvextract) (input : GoDoc) : Option (List String × String) :=
  (tierHit input row.OptionalsMDOC row.CrunchFromMDOC).orElse fun _ =>
    (tierHit input row.FromMDOC row.CrunchFromMDOC).orElse fun _ =>
      (tierHit input row.OptionalsXML row.CrunchFromXML).orElse fun _ =>
        tierHit input row.FromXML row.CrunchFromXML

/-- A rule whose tier-1 primary pattern is a semicolon list holding one
wildcard name: the scenario of the semicolon registration theorems. -/
def listPatternRow : csvextract :=
  { OSCEM := "acquisition.detectors[N].mode", FromMDOC := "P[N].x;Q", Typ := "string" }

/-- An input document resolving only the second name of the list. -/
def listPatternDoc : GoDoc := [("Q", "counting")]

/-- A wildcard rule used to instantiate the registry theorems. -/
def wildcardRow : csvextract :=
  { OSCEM := "a.b[N].c", FromMDOC := "src[N].v", Typ := "int" }

/-- A rule with a unit factor, used to instantiate the unit-conversion
failure theorem. -/
def crunchRow : csvextract :=
  { OSCEM := "instrument.voltage", FromMDOC := "HT", Units := "kV",
    CrunchFromMDOC := "0.001", Typ := "float64" }

/-- Two dynamic-array rules in the shape of the spec example. -/
def demoArrayRules : List csvextract :=
  [{ OSCEM := "acquisition.detectors[N].name",
     FromMDOC := "Detectors.Detector-[N].DetectorName", Typ := "string" },
   { OSCEM := "acquisition.detectors[N].mode",
     FromMDOC := "Detectors.Detector-[N].Mode", Typ := "string" }]

/-- Grouped per-identifier sub-documents of the spec example, listed with
identifier 7 first to exercise the sorting. -/
def demoArrayGroups : List (String × GoDoc) :=
  [("7", [("Detectors.Detector-7.DetectorName", "K3")]),
   ("1", [("Detectors.Detector-1.DetectorName", "Falcon"),
          ("Detectors.Detector-1.Mode", "Counting")])]

/-- A tree with set leaves, unset leaves and a container that prunes to
nothing, used to instantiate the pruning theorems. -/
def demoTree : GoVal :=
  .obj (.cons "a" (.vint 1 "nm" true)
    (.cons "b" (.vint 0 "" false)
      (.cons "c" (.obj (.cons "d" (.vbool false false) .nil))
        (.cons "e" (.arr (.cons (.vstr "x" true) .nil)) .nil))))

/-- Totality of the byte order, as a proof term for the sort lemmas. -/
def charListLe_total : ∀ as bs : List Char, charListLe as bs = true ∨ charListLe bs as = true
  | [], _ => Or.inl rfl
  | _ :: _, [] => Or.inr rfl
  | a :: as, b :: bs => by
      simp only [charListLe]
      rcases Nat.lt_trichotomy a.toNat b.toNat with h | h | h
      · left; simp [h]
      · have h1 : ¬ a.toNat < b.toNat := by omega
        have h2 : ¬ b.toNat < a.toNat := by omega
        rcases charListLe_total as bs with ih | ih
        · left; simp [h1, h2, ih]
        · right; simp [h1, h2, ih]
      · right; simp [h]

/-- Transitivity of the byte order, as a proof term for the sort lemmas. -/
def charListLe_trans : ∀ as bs cs : List Char,
    charListLe as bs = true → charListLe bs cs = true → charListLe as cs = true
  | [], _, _, _, _ => rfl
  | _ :: _, [], _, h1, _ => by simp [charListLe] at h1
  | _ :: _, _ :: _, [], _, h2 => by simp [charListLe] at h2
  | a :: as, b :: bs, c :: cs, h1, h2 => by
      simp only [charListLe] at h1 h2 ⊢
      rcases Nat.lt_trichotomy a.toNat b.toNat with hab | hab | hab
      · rcases Nat.lt_trichotomy b.toNat c.toNat with hbc | hbc | hbc
        · simp [show a.toNat < c.toNat by omega]
        · simp [show a.toNat < c.toNat by omega]
        · rw [if_neg (by omega), if_pos hbc] at h2; simp at h2
      · rcases Nat.lt_trichotomy b.toNat c.toNat with hbc | hbc | hbc
        · simp [show a.toNat < c.toNat by omega]
        · have hnab : ¬ a.toNat < b.toNat := by omega
          have hnba : ¬ b.toNat < a.toNat := by omega
          rw [if_neg hnab, if_neg hnba] at h1
          have hnbc : ¬ b.toNat < c.toNat := by omega
          have hncb : ¬ c.toNat < b.toNat := by omega
          rw [if_neg hnbc, if_neg hncb] at h2
          have hrec := charListLe_trans as bs cs h1 h2
          simp [show ¬ a.toNat < c.toNat by omega, show ¬ c.toNat < a.toNat by omega, hrec]
        · rw [if_neg (by omega), if_pos hbc] at h2; simp at h2
      · rw [if_neg (by omega), if_pos hab] at h1; simp at h1

instance goStrLeIsTotal : IsTotal String (fun a b => goStrLe a b = true) :=
  ⟨fun a b => charListLe_total a.toList b.toList⟩

instance goStrLeIsTrans : IsTrans String (fun a b => goStrLe a b = true) :=
  ⟨fun a b c h1 h2 => charListLe_trans a.toList b.toList c.toList h1 h2⟩

theorem cleanMap_obj (e : GoEntries) :
    CleanMap (.obj e) =
      if entriesIsEmpty (cleanEntries e) then none else some (.obj (cleanEntries e)) := rfl

theorem cleanMap_arr (xs : GoItems) :
    CleanMap (.arr xs) =
      if itemsIsEmpty (cleanItems xs) then none else some (.arr (cleanItems xs)) := rfl

theorem cleanEntries_cons (k : String) (v : GoVal) (rest : GoEntries) :
    cleanEntries (.cons k v rest) =
      match CleanMap v with
      | some cv => .cons k cv (cleanEntries rest)
      | none => cleanEntries rest := rfl

theorem cleanItems_cons (v : GoVal) (rest : GoItems) :
    cleanItems (.cons v rest) =
      match CleanMap v with
      | some cv => .cons cv (cleanItems rest)
      | none => cleanItems rest := rfl

mutual
theorem cleanMapSound : ∀ t t', CleanMap t = some t' → isCleanVal t' = true
  | .obj e, t', h => by
      have he := cleanEntriesSound e
      rw [cleanMap_obj] at h
      by_cases hc : entriesIsEmpty (cleanEntries e) = true
      · rw [if_pos hc] at h; exact absurd h (by simp)
      · rw [if_neg hc] at h
        cases h
        simp only [isCleanVal, Bool.and_eq_true, Bool.not_eq_true']
        exact ⟨Bool.not_eq_true _ ▸ hc, he⟩
  | .arr xs, t', h => by
      have hi := cleanItemsSound xs
      rw [cleanMap_arr] at h
      by_cases hc : itemsIsEmpty (cleanItems xs) = true
      · rw [if_pos hc] at h; exact absurd h (by simp)
      · rw [if_neg hc] at h
        cases h
        simp only [isCleanVal, Bool.and_eq_true, Bool.not_eq_true']
        exact ⟨Bool.not_eq_true _ ▸ hc, hi⟩
  | .vint n u s, t', h => by
      cases s
      · exact absurd h (by simp [CleanMap])
      · simp [CleanMap] at h; cases h; rfl
  | .vfloat q u s, t', h => by
      cases s
      · exact absurd h (by simp [CleanMap])
      · simp [CleanMap] at h; cases h; rfl
  | .vbool b s, t', h => by
      cases s
      · exact absurd h (by simp [CleanMap])
      · simp [CleanMap] at h; cases h; rfl
  | .vstr x s, t', h => by
      cases s
      · exact absurd h (by simp [CleanMap])
      · simp [CleanMap] at h; cases h; rfl
  | .vnil, t', h => by exact absurd h (by simp [CleanMap])
theorem cleanEntriesSound : ∀ e, isCleanEntries (cleanEntries e) = true
  | .nil => rfl
  | .cons k v rest => by
      have ih := cleanEntriesSound rest
      rw [cleanEntries_cons]
      cases hv : CleanMap v with
      | none => exact ih
      | some cv =>
          have hcv := cleanMapSound v cv hv
          simp only [isCleanEntries, Bool.and_eq_true]
          exact ⟨hcv, ih⟩
theorem cleanItemsSound : ∀ xs, isCleanItems (cleanItems xs) = true
  | .nil => rfl
  | .cons v rest => by
      have ih := cleanItemsSound rest
      rw [cleanItems_cons]
      cases hv : CleanMap v with
      | none => exact ih
      | some cv =>
          have hcv := cleanMapSound v cv hv
          simp only [isCleanItems, Bool.and_eq_true]
          exact ⟨hcv, ih⟩
end

mutual
theorem cleanMapFixed : ∀ t, isCleanVal t = true → CleanMap t = some t
  | .obj e, h => by
      obtain ⟨h1, h2⟩ : !(entriesIsEmpty e) = true ∧ isCleanEntries e = true := by
        simpa [isCleanVal, Bool.and_eq_true] using h
      rw [cleanMap_obj, cleanEntriesFixed e h2, if_neg (by simp_all)]
  | .arr xs, h => by
      obtain ⟨h1, h2⟩ : !(itemsIsEmpty xs) = true ∧ isCleanItems xs = true := by
        simpa [isCleanVal, Bool.and_eq_true] using h
      rw [cleanMap_arr, cleanItemsFixed xs h2, if_neg (by simp_all)]
  | .vint n u s, h => by
      have : s = true := h
      subst this; simp [CleanMap]
  | .vfloat q u s, h => by
      have : s = true := h
      subst this; simp [CleanMap]
  | .vbool b s, h => by
      have : s = true := h
      subst this; simp [CleanMap]
  | .vstr x s, h => by
      have : s = true := h
      subst this; simp [CleanMap]
  | .vnil, h => by exact absurd h (by simp [isCleanVal])
theorem cleanEntriesFixed : ∀ e, isCleanEntries e = true → cleanEntries e = e
  | .nil, _ => rfl
  | .cons k v rest, h => by
      obtain ⟨h1, h2⟩ : isCleanVal v = true ∧ isCleanEntries rest = true := by
        simpa [isCleanEntries, Bool.and_eq_true] using h
      rw [cleanEntries_cons, cleanMapFixed v h1, cleanEntriesFixed rest h2]
theorem cleanItemsFixed : ∀ xs, isCleanItems xs = true → cleanItems xs = xs
  | .nil, _ => rfl
  | .cons v rest, h => by
      obtain ⟨h1, h2⟩ : isCleanVal v = true ∧ isCleanItems rest = true := by
        simpa [isCleanItems, Bool.and_eq_true] using h
      rw [cleanItems_cons, cleanMapFixed v h1, cleanItemsFixed rest h2]
end

/-- Claim C2: every tree returned by the final pruning pass is clean:
no leaf with the set flag false, no Go nil leaf, no empty container and
no empty sequence survive; recursively every surviving container or
sequence holds at least one kept child, so it transitively bottoms out
in set leaves. -/
theorem cleanMap_output_clean (t t' : GoVal) (h : CleanMap t = some t') :
    isCleanVal t' = true :=
  cleanMapSound t t' h

/-- Witness for C2 at a concrete tree holding set leaves, unset leaves
and a container that prunes away entirely. -/
theorem cleanMap_output_clean_witness :
    isCleanVal (GoVal.obj (.cons "a" (.vint 1 "nm" true)
      (.cons "e" (.arr (.cons (.vstr "x" true) .nil)) .nil))) = true :=
  cleanMap_output_clean demoTree
    (GoVal.obj (.cons "a" (.vint 1 "nm" true)
      (.cons "e" (.arr (.cons (.vstr "x" true) .nil)) .nil))) rfl

/-- Claim C9: pruning is idempotent; composing `CleanMap` with itself
(through the option of removal) changes nothing over a single pass. -/
theorem cleanMap_idempotent (t : GoVal) : (CleanMap t).bind CleanMap = CleanMap t := by
  cases h : CleanMap t with
  | none => rfl
  | some t1 => simpa using cleanMapFixed t1 (cleanMapSound t t1 h)

theorem extractSemi_fst (row : csvextract) (input : GoDoc) :
    ∀ (names : List String) (dyn : List csvextract),
      (extractSemi row input names dyn).1 = extractSemiPure input names
  | [], _ => rfl
  | name :: rest, dyn => by
      simp only [extractSemi, extractSemiPure]
      by_cases h : goTrim name = ""
      · simp [h, extractSemi_fst row input rest dyn]
      · cases hl : lookupDoc input (goTrim name) with
        | some v => simp [h, hl, extractSemi_fst row input rest dyn]
        | none =>
            simp [h, hl,
              extractSemi_fst row input rest (storeUnmappedField dyn row (goTrim name))]

theorem extractValues_fst (row : csvextract) (input : GoDoc) (key : String)
    (dyn : List csvextract) :
    (extractValuesFromInput row input key dyn).1 = extractFoundPure input key := by
  unfold extractValuesFromInput extractFoundPure
  by_cases h : goContains key ";" = true
  · simp [h, extractSemi_fst]
  · cases hl : lookupDoc input key with
    | some v => simp [h, hl]
    | none => simp [h, hl]

theorem tierCheck_fst (row : csvextract) (input : GoDoc) (dyn : List csvextract)
    (field crunch : String) :
    (tierCheck row input dyn field crunch).1 = tierHit input field crunch := by
  unfold tierCheck tierHit
  by_cases h : field = ""
  · simp [h]
  · simp only [h, if_false]
    rw [show (extractValuesFromInput row input field dyn).1 = extractFoundPure input field from
      extractValues_fst row input field dyn]
    cases hp : extractFoundPure input field with
    | mk vals found => cases found <;> simp [hp]

theorem fmv_fst (row : csvextract) (input : GoDoc) (dyn : List csvextract) :
    (findMatchingValues row input dyn).1 = resolveByPriority row input := by
  unfold findMatchingValues resolveByPriority
  simp only [tierCheck_fst]
  cases h1 : tierHit input row.OptionalsMDOC row.CrunchFromMDOC with
  | some v => simp [Option.orElse]
  | none =>
      cases h2 : tierHit input row.FromMDOC row.CrunchFromMDOC with
      | some v => simp [Option.orElse]
      | none =>
          cases h3 : tierHit input row.OptionalsXML row.CrunchFromXML with
          | some v => simp [Option.orElse]
          | none => simp [Option.orElse, tierCheck_fst]

/-- Claim C1: the resolver returns the value and crunch factor of the
highest-priority resolving tier, in the fixed order tier-1 alternate,
tier-1 primary, tier-2 alternate, tier-2 primary, with no fall-through
once a tier yields a hit: the found component of `findMatchingValues`
equals the priority chain `resolveByPriority` on every rule, input and
registry state; in particular, when all four tiers resolve the produced
value is the converted tier-1 alternate hit. -/
theorem findMatchingValues_priority (row : csvextract) (input : GoDoc)
    (dyn : List csvextract) :
    (findMatchingValues row input dyn).1 = resolveByPriority row input :=
  fmv_fst row input dyn

/-- Claim C5 counterexample: under the rule whose tier-1 primary pattern
is the semicolon list holding the wildcard name, resolving against a
document that lacks that name registers the individual list member with
the second pass, so registration is not confined to the single-name
case. -/
theorem semicolon_member_registered :
    (extractValuesFromInput listPatternRow listPatternDoc "P[N].x;Q" []).2.map
      csvextract.FromMDOC = ["P[N].x"] := rfl

/-- Claim C5 as amended: the registry holds at most one entry per
distinct pattern string, and a looked-up-and-missing name is registered
exactly when it carries the wildcard marker and the rule targets a
wildcard path, whether the name stood alone or inside a semicolon
list. -/
theorem storeUnmappedField_registry (dyn : List csvextract) (row : csvextract) (f : String) :
    ((dyn.map csvextract.FromMDOC).Nodup →
      ((storeUnmappedField dyn row f).map csvextract.FromMDOC).Nodup)
    ∧ (f ∈ (storeUnmappedField dyn row f).map csvextract.FromMDOC ↔
        (f ∈ dyn.map csvextract.FromMDOC ∨
          (containsN f = true ∧ containsN row.OSCEM = true))) := by
  unfold storeUnmappedField
  by_cases h1 : containsN f = true
  · by_cases h2 : (dyn.any fun stored => stored.FromMDOC = f) = true
    · have hmem : f ∈ dyn.map csvextract.FromMDOC := by
        rcases List.any_eq_true.mp h2 with ⟨x, hx, hfx⟩
        exact List.mem_map.mpr ⟨x, hx, by simpa using hfx⟩
      simp [h1, h2, hmem]
    · have h2a : ∀ x ∈ dyn, ¬ x.FromMDOC = f := by simpa using h2
      have hnm : f ∉ dyn.map csvextract.FromMDOC := by
        intro hc
        rcases List.mem_map.mp hc with ⟨x, hx, hfx⟩
        exact h2a x hx hfx
      by_cases h3 : containsN row.OSCEM = true
      · simp only [h1, h2, h3, Bool.not_false, Bool.and_self, if_true, Bool.not_true,
          Bool.false_and, List.map_append]
        constructor
        · intro hd
          simp [List.nodup_append, hd, hnm]
        · simp [h1, h3]
      · simp [h1, h2, h3, hnm]
  · simp [h1]

/-- Witness for the amended C5 at a concrete wildcard rule and name. -/
theorem storeUnmappedField_registry_witness :
    ((storeUnmappedField [] wildcardRow "src[N].v").map csvextract.FromMDOC).Nodup
    ∧ "src[N].v" ∈ (storeUnmappedField [] wildcardRow "src[N].v").map csvextract.FromMDOC :=
  ⟨(storeUnmappedField_registry [] wildcardRow "src[N].v").1 (by simp),
   (storeUnmappedField_registry [] wildcardRow "src[N].v").2.mpr (Or.inr ⟨rfl, rfl⟩)⟩

/-- Claim C3 evaluated on the code: when a rule targets `a.b` after `a`
already holds a non-container leaf, `insertNested` reaches the unchecked
type assertion and panics (modelled by `none`) instead of reporting a
structural error and skipping the rule, and `addItemsToArrayPath`
abandons its placement silently, without surfacing any error. -/
theorem insert_conflict_behavior :
    insertNested (GoEntries.cons "a" (GoVal.vint 1 "" true) GoEntries.nil) ["a", "b"]
        (GoVal.vstr "x" true) = none
    ∧ addItemsToArrayPath (GoEntries.cons "a" (GoVal.vint 1 "" true) GoEntries.nil)
        (GoItems.cons (GoVal.obj GoEntries.nil) GoItems.nil) "a.b"
      = GoEntries.cons "a" (GoVal.vint 1 "" true) GoEntries.nil :=
  ⟨rfl, rfl⟩

/-- Claim C4: a text that carries no leading number casts to the integer
declared type as the zero value with the set flag still true, and the
floating-point declared type behaves the same way. -/
theorem cast_failure_still_set (s u : String) (hi : scanInt s = none)
    (hf : scanFloat s = none) :
    castToBaseType s "int" u = GoVal.vint 0 u true ∧
    castToBaseType s "float64" u = GoVal.vfloat 0 u true := by
  have h1 : castToBaseType s "int" u = GoVal.vint ((scanInt s).getD 0) u true := rfl
  have h2 : castToBaseType s "float64" u = GoVal.vfloat ((scanFloat s).getD 0) u true := rfl
  rw [h1, h2, hi, hf]
  exact ⟨rfl, rfl⟩

/-- Witness for C4 at the text of the claim. -/
theorem cast_failure_still_set_witness :
    castToBaseType "abc" "int" "px" = GoVal.vint 0 "px" true ∧
    castToBaseType "abc" "float64" "px" = GoVal.vfloat 0 "px" true :=
  cast_failure_still_set "abc" "px" rfl rfl

/-- Claim C7: with a non-empty unit factor and a raw value that does not
parse as a float, the conversion is skipped, the unconverted raw string
is kept and handed to type casting, and a non-fatal diagnostic is
emitted; every function on this path is total, so the run continues. -/
theorem unit_parse_failure_keeps_raw (raw factor : String) (row : csvextract)
    (hfac : factor ≠ "") (hp : goParseFloat raw = none) :
    (applyUnitCrunch factor raw row).1 = raw
    ∧ (applyUnitCrunch factor raw row).2 ≠ []
    ∧ processValue raw factor row = castToBaseType raw row.Typ row.Units := by
  have hu : unitCrunch raw factor = (raw, some "invalid syntax") := by
    unfold unitCrunch; rw [hp]
  have ha : applyUnitCrunch factor raw row =
      (raw, ["Unit crunching failed for " ++ row.OSCEM ++ " : " ++ "invalid syntax"]) := by
    unfold applyUnitCrunch
    rw [if_pos hfac, hu]
  refine ⟨by rw [ha], by rw [ha]; simp, ?_⟩
  unfold processValue
  rw [show (applyUnitCrunch factor raw row).1 = raw from by rw [ha]]

/-- Witness for C7 at a non-numeric raw value and the factor 0.5. -/
theorem unit_parse_failure_keeps_raw_witness :
    (applyUnitCrunch "0.5" "abc" crunchRow).1 = "abc"
    ∧ (applyUnitCrunch "0.5" "abc" crunchRow).2 ≠ []
    ∧ processValue "abc" "0.5" crunchRow = castToBaseType "abc" crunchRow.Typ crunchRow.Units :=
  unit_parse_failure_keeps_raw "abc" "0.5" crunchRow (by simp) rfl

theorem convertTail_nil (p1 p2 : String) :
    convertTail GoEntries.nil p1 p2 = some (some (injectedOnlyTree p1 p2)) := rfl

/-- Claim C8 counterexample: with both caller values empty, the final
pruned output still holds `instrument.cs` as a zero with the set flag
true and `acquisition.gainref_flip_rotate` as an empty set text: an
unset caller value does not leave the output without these fields. -/
theorem injected_field_present_when_unset :
    convertTail GoEntries.nil "" "" = some (some (injectedOnlyTree "" ""))
    ∧ lookupPath (injectedOnlyTree "" "") ["instrument", "cs"]
        = some (GoVal.vfloat 0 "mm" true)
    ∧ lookupPath (injectedOnlyTree "" "") ["acquisition", "gainref_flip_rotate"]
        = some (GoVal.vstr "" true) :=
  ⟨rfl, rfl, rfl⟩

/-- Claim C8 as amended: the two injected fields go through the same
`castToBaseType`, `insertNested` and `CleanMap` path as ordinary fields,
but since the cast always marks its result as set, the two fields are
present in the pruned output for every caller value, the empty one
included; they are never removed by pruning. -/
theorem injected_fields_same_path_always_present (p1 p2 : String) :
    convertTail GoEntries.nil p1 p2 = some (some (injectedOnlyTree p1 p2))
    ∧ lookupPath (injectedOnlyTree p1 p2) ["instrument", "cs"]
        = some (castToBaseType p1 "float64" "mm")
    ∧ lookupPath (injectedOnlyTree p1 p2) ["acquisition", "gainref_flip_rotate"]
        = some (castToBaseType p2 "string" "")
    ∧ isSetLeaf (castToBaseType p1 "float64" "mm") = true
    ∧ isSetLeaf (castToBaseType p2 "string" "") = true :=
  ⟨convertTail_nil p1 p2, rfl, rfl, rfl, rfl⟩

theorem buildSortedElems_sublist (f : String → Option GoEntries) :
    ∀ (l : List String) (ps : List (String × GoEntries)),
      buildSortedElems f l = some ps → List.Sublist (ps.map Prod.fst) l
  | [], ps, h => by
      simp only [buildSortedElems] at h
      cases h
      simp
  | idx :: rest, ps, h => by
      simp only [buildSortedElems] at h
      cases hf : f idx with
      | none => rw [hf] at h; exact absurd h (by simp)
      | some el =>
          rw [hf] at h
          simp only at h
          cases hb : buildSortedElems f rest with
          | none => rw [hb] at h; exact absurd h (by simp)
          | some tail =>
              rw [hb] at h
              simp only at h
              have ih := buildSortedElems_sublist f rest tail hb
              by_cases he : entriesIsEmpty el = true
              · simp only [he, if_true] at h
                cases h
                exact ih.cons idx
              · simp only [he, if_false] at h
                cases h
                simpa using ih.cons₂ idx

theorem sortIndices_sorted (m : List (String × GoDoc)) :
    List.Sorted (fun a b => goStrLe a b = true) (sortIndices m) :=
  List.sorted_insertionSort _ _

/-- Claim C6: the elements of each dynamically assembled target array
are emitted in ascending byte order of their captured group values, in
both second-pass loops (the wildcard assembler of arrays.go and the
detector assembler of detectors.go); the model is a function of its
input, so the order is reproducible. -/
theorem dynamic_array_order_sorted :
    (∀ (indices : List (String × GoDoc)) (dynPatterns : List csvextract)
        (ps : List (String × GoEntries)),
        processArrayIndices indices dynPatterns = some ps →
        List.Sorted (fun a b => goStrLe a b = true) (ps.map Prod.fst))
    ∧ (∀ (detectorInputs : List (String × GoDoc)) (rows : List csvextract)
        (ps : List (String × GoEntries)),
        processEachDetector detectorInputs rows = some ps →
        List.Sorted (fun a b => goStrLe a b = true) (ps.map Prod.fst)) := by
  constructor
  · intro indices dynPatterns ps h
    exact List.Pairwise.sublist (buildSortedElems_sublist _ _ _ h) (sortIndices_sorted indices)
  · intro detectorInputs rows ps h
    exact List.Pairwise.sublist (buildSortedElems_sublist _ _ _ h)
      (sortIndices_sorted detectorInputs)

/-- Witness for C6 on the spec example: identifiers 1 and 7, listed with
7 first, come out with 1 before 7 through both assembler loops. -/
theorem dynamic_array_order_sorted_witness :
    List.Sorted (fun a b => goStrLe a b = true)
      (([("1", GoEntries.cons "name" (GoVal.vstr "Falcon" true)
            (GoEntries.cons "mode" (GoVal.vstr "Counting" true) GoEntries.nil)),
         ("7", GoEntries.cons "name" (GoVal.vstr "K3" true) GoEntries.nil)]
        : List (String × GoEntries)).map Prod.fst)
    ∧ List.Sorted (fun a b => goStrLe a b = true)
      (([("1", GoEntries.cons "name" (GoVal.vstr "Falcon" true)
            (GoEntries.cons "mode" (GoVal.vstr "Counting" true) GoEntries.nil)),
         ("7", GoEntries.cons "name" (GoVal.vstr "K3" true) GoEntries.nil)]
        : List (String × GoEntries)).map Prod.fst) :=
  ⟨dynamic_array_order_sorted.1 demoArrayGroups demoArrayRules
      [("1", GoEntries.cons "name" (GoVal.vstr "Falcon" true)
          (GoEntries.cons "mode" (GoVal.vstr "Counting" true) GoEntries.nil)),
       ("7", GoEntries.cons "name" (GoVal.vstr "K3" true) GoEntries.nil)] rfl,
   dynamic_array_order_sorted.2 demoArrayGroups demoArrayRules
      [("1", GoEntries.cons "name" (GoVal.vstr "Falcon" true)
          (GoEntries.cons "mode" (GoVal.vstr "Counting" true) GoEntries.nil)),
       ("7", GoEntries.cons "name" (GoVal.vstr "K3" true) GoEntries.nil)] rfl⟩

theorem extractSemiPure_nil : ∀ names : List String, (extractSemiPure [] names).2 = false
  | [] => rfl
  | name :: rest => by
      simp only [extractSemiPure]
      by_cases h : goTrim name = ""
      · simp [h, extractSemiPure_nil rest]
      · simp [h, lookupDoc, extractSemiPure_nil rest]

theorem extractFound_nil (key : String) : (extractFoundPure [] key).2 = false := by
  unfold extractFoundPure
  by_cases h : goContains key ";" = true
  · simp [h, extractSemiPure_nil]
  · simp [h, lookupDoc]

theorem tierHit_nil (field crunch : String) : tierHit [] field crunch = none := by
  unfold tierHit
  by_cases h : field = ""
  · simp [h]
  · simp only [h, if_false]
    have h2 := extractFound_nil field
    cases hp : extractFoundPure [] field with
    | mk vals found =>
        rw [hp] at h2
        cases found
        · simp
        · exact absurd h2 (by simp)

theorem resolveByPriority_nil (row : csvextract) : resolveByPriority row [] = none := by
  unfold resolveByPriority
  simp [tierHit_nil, Option.orElse]

theorem processRegularMappings_nil :
    ∀ (rows : List csvextract) (res : GoEntries) (dyn : List csvextract),
      ∃ d, processRegularMappings rows [] res dyn = some (res, d)
  | [], res, dyn => ⟨dyn, rfl⟩
  | row :: rest, res, dyn => by
      have hr : processRow [] res dyn row = some (res, (findMatchingValues row [] dyn).2) := by
        unfold processRow
        have hn : (findMatchingValues row [] dyn).1 = none := by
          rw [fmv_fst]; exact resolveByPriority_nil row
        simp [hn]
      obtain ⟨d, hd⟩ := processRegularMappings_nil rest res (findMatchingValues row [] dyn).2
      refine ⟨d, ?_⟩
      simp only [processRegularMappings, hr, hd]

theorem scanPattern_nil (acc : List (String × List (String × GoDoc))) (target fp : String) :
    scanPattern acc target fp [] = acc := rfl

theorem groupPatterns_nil (target : String) :
    ∀ (pats : List csvextract) (acc : List (String × List (String × GoDoc))),
      pats.foldl
        (fun acc2 pat =>
          let fp := getFieldPattern pat
          if fp = "" then acc2
          else if !containsN fp then acc2
          else scanPattern acc2 target fp [])
        acc = acc
  | [], _ => rfl
  | pat :: rest, acc => by
      simp only [List.foldl_cons]
      rw [show (let fp := getFieldPattern pat
          if fp = "" then acc
          else if !containsN fp then acc
          else scanPattern acc target fp []) = acc from ?_]
      · exact groupPatterns_nil target rest acc
      · by_cases h1 : getFieldPattern pat = ""
        · simp [h1]
        · by_cases h2 : containsN (getFieldPattern pat) = true <;> simp [h1, h2, scanPattern_nil]

theorem groupArrayInputs_nil (groups : List (String × List csvextract)) :
    groupArrayInputs [] groups = [] := by
  unfold groupArrayInputs
  induction groups with
  | nil => rfl
  | cons g rest ih =>
      simp only [List.foldl_cons]
      rw [show (let target :=
            match g.2 with
            | [] => ""
            | p0 :: _ =>
                let (ap, an) := parseArrayPathFromOSCEM p0.OSCEM
                goIntercalate "." (ap ++ [an])
          if target = "" then ([] : List (String × List (String × GoDoc)))
          else
            g.2.foldl
              (fun acc2 pat =>
                let fp := getFieldPattern pat
                if fp = "" then acc2
                else if !containsN fp then acc2
                else scanPattern acc2 target fp [])
              []) = ([] : List (String × List (String × GoDoc))) from ?_]
      · exact ih
      · by_cases ht : (match g.2 with
            | [] => ""
            | p0 :: _ =>
                let (ap, an) := parseArrayPathFromOSCEM p0.OSCEM
                goIntercalate "." (ap ++ [an])) = ""
        · simp [ht]
        · simp only [ht, if_false]
          exact groupPatterns_nil _ g.2 []

theorem processDynamicArrayFields_nil (res : GoEntries) (dyn : List csvextract) :
    processDynamicArrayFields res dyn [] = some res := by
  unfold processDynamicArrayFields
  by_cases h : dyn.isEmpty = true
  · simp [h]
  · simp [h, groupArrayInputs_nil]

/-- Claim C10: `Convert` discards the result of `json.Unmarshal`; a byte
sequence that does not decode as a flat text document leaves the nil
map, so the engine runs exactly as on an empty document, succeeds, and
returns the tree holding only the two caller-injected constants. -/
theorem invalid_json_treated_as_empty (rows : List csvextract) (p1 p2 : String) :
    ConvertEngine none rows p1 p2 = ConvertEngine (some []) rows p1 p2
    ∧ ConvertEngine none rows p1 p2 = some (some (injectedOnlyTree p1 p2)) := by
  constructor
  · rfl
  · unfold ConvertEngine convertToHierarchicalJSON
    obtain ⟨d, hd⟩ := processRegularMappings_nil rows GoEntries.nil []
    rw [show ((none : Option GoDoc).getD []) = ([] : GoDoc) from rfl, hd]
    simpa [processDynamicArrayFields_nil] using convertTail_nil p1 p2
